import Mathlib

/-
Verification development for the semantic-fhir-intelligence repository.

The embedding below mirrors the two core modules:
  * semantic_mapper.py  — FHIR bundle → per-record property graph, plus the
    fever derivation rule;
  * population_graph.py — concept extraction and population-level
    co-occurrence aggregation.

Documents are modelled by typed records whose optional fields are Option
values (a missing JSON key is none).  JSON numbers that the code only ever
stringifies (valueQuantity.value) are carried as their printed decimal form.
Python dicts are modelled as insertion-ordered association lists, matching
CPython dict semantics.  The numeric parse float(...) is modelled exactly
over plain decimal literals (optional sign, digits, one optional dot) as a
rational number; the observation values the program handles are of this
shape, and the comparison with the threshold 38.0 is exact on them.
-/

namespace SFI

-- ----------------------------------------------------------------
-- Association lists with Python dict semantics (insertion ordered)
-- ----------------------------------------------------------------

/-- First-match lookup in an association list; models Python dict.get. -/
def lookupAL {K : Type} [DecidableEq K] {B : Type} : List (K × B) → K → Option B
  | [], _ => none
  | (k', v) :: t, k => if k' = k then some v else lookupAL t k

/-- Set one key of a dict: overwrite in place if present, else append.
Models CPython assignment d[k] = v, which keeps the key position. -/
def dictSet {K : Type} [DecidableEq K] {B : Type}
    (d : List (K × B)) (k : K) (v : B) : List (K × B) :=
  if (lookupAL d k).isSome then
    d.map fun p => if p.1 = k then (p.1, v) else p
  else d ++ [(k, v)]

/-- Python dict.update(upd): set each key of upd in order. -/
def dictUpdate {K : Type} [DecidableEq K] {B : Type}
    (d upd : List (K × B)) : List (K × B) :=
  upd.foldl (fun acc p => dictSet acc p.1 p.2) d

/-- Python defaultdict(int) access d[k] += 1: increment in place if the key
is present, else append it with value 1 (first access inserts the key). -/
def bumpAL {K : Type} [DecidableEq K] (d : List (K × Nat)) (k : K) : List (K × Nat) :=
  if (lookupAL d k).isSome then
    d.map fun p => if p.1 = k then (p.1, p.2 + 1) else p
  else d ++ [(k, 1)]

/-- Counter value of a key, 0 when absent (defaultdict(int) read). -/
def valAt {K : Type} [DecidableEq K] (d : List (K × Nat)) (k : K) : Nat :=
  (lookupAL d k).getD 0

-- ----------------------------------------------------------------
-- Typed document model (the JSON fields the mapper reads)
-- ----------------------------------------------------------------

/-- One entry of a code.coding list: a (system, code, display) triple. -/
structure Coding where
  system : Option String := none
  code : Option String := none
  display : Option String := none
deriving DecidableEq, Repr

/-- A codeable concept: optional text plus a coding list
(r.get("code", \x7b\x7d).get("coding", []) or [] collapses a missing or
empty coding to []). -/
structure CodeableConcept where
  text : Option String := none
  coding : List Coding := []
deriving DecidableEq, Repr

/-- valueQuantity; value holds the printed form of the JSON number, which is
all the mapper ever uses (it stringifies it into the value summary). -/
structure Quantity where
  value : Option String := none
  unit : Option String := none
deriving DecidableEq, Repr

/-- One element of a Patient name list. -/
structure HumanName where
  family : Option String := none
  given : List String := []
deriving DecidableEq, Repr

/-- A reference object: a dict that may carry a "reference" key. -/
structure RefObj where
  reference : Option String := none
deriving DecidableEq, Repr

/-- Encounter class object (the mapper reads only its code). -/
structure ClassObj where
  code : Option String := none
deriving DecidableEq, Repr

/-- An object the mapper reads a "text" key from (clinicalStatus). -/
structure TextObj where
  text : Option String := none
deriving DecidableEq, Repr

/-- A sub-record (FHIR resource): the union of all fields any handler reads.
A missing key is none (resp. [] for list-valued keys). -/
structure Res where
  resourceType : Option String := none
  id : Option String := none
  name : List HumanName := []
  gender : Option String := none
  birthDate : Option String := none
  code : Option CodeableConcept := none
  status : Option String := none
  subject : Option RefObj := none
  valueQuantity : Option Quantity := none
  valueString : Option String := none
  valueCodeableConcept : Option CodeableConcept := none
  encClass : Option ClassObj := none
  clinicalStatus : Option TextObj := none
  medicationCodeableConcept : Option CodeableConcept := none
deriving DecidableEq, Repr

/-- A sub-record with every field missing (the empty JSON object). -/
def emptyRes : Res := {}

/-- One bundle entry; entry.get("resource", \x7b\x7d) defaults to the empty
object when the key is missing. -/
structure BEntry where
  resource : Option Res := none
deriving DecidableEq, Repr

/-- A bundle document: root type tag plus entry list
(bundle.get("entry", []) defaults to []). -/
structure Bundle where
  resourceType : Option String := none
  entry : List BEntry := []
deriving DecidableEq, Repr

-- ----------------------------------------------------------------
-- Graph data model (semantic_mapper.py dataclasses)
-- ----------------------------------------------------------------

/-- A node property value: null, a string, or a raw stashed sub-record
(the unknown-resource-type branch stores the whole record under "raw"). -/
inductive PValue where
  | null : PValue
  | str : String → PValue
  | rawRes : Res → PValue
deriving DecidableEq, Repr

/-- Graph node: id, type tag, and an insertion-ordered property dict. -/
structure Node where
  id : String
  type : String
  props : List (String × PValue)
deriving DecidableEq, Repr

/-- Graph edge: source id, destination id, relationship label. -/
structure Edge where
  src : String
  dst : String
  rel : String
deriving DecidableEq, Repr

/-- Graph: insertion-ordered id-keyed node dict plus append-only edge list. -/
structure Graph where
  nodes : List (String × Node)
  edges : List Edge
deriving DecidableEq, Repr

def emptyGraph : Graph := { nodes := [], edges := [] }

def lookupNode (g : Graph) (rid : String) : Option Node :=
  lookupAL g.nodes rid

/-- Merge new properties into a node, dropping null values first
(props.update of the non-None items); id and type are untouched. -/
def mergeProps (n : Node) (props : List (String × PValue)) : Node :=
  { n with props := dictUpdate n.props (props.filter (fun kv => decide (kv.2 ≠ PValue.null))) }

/-- SemanticMapper._add_node: insert a fresh node, or merge the non-null
new properties into the existing node. -/
def addNode (g : Graph) (rid rtype : String) (props : List (String × PValue)) : Graph :=
  if (lookupNode g rid).isSome then
    { g with nodes := g.nodes.map (fun p => if p.1 = rid then (p.1, mergeProps p.2 props) else p) }
  else
    { g with nodes := g.nodes ++ [(rid, { id := rid, type := rtype, props := props })] }

/-- SemanticMapper._add_edge: append. -/
def addEdge (g : Graph) (src dst rel : String) : Graph :=
  { g with edges := g.edges ++ [{ src := src, dst := dst, rel := rel }] }

-- ----------------------------------------------------------------
-- Mapper helpers
-- ----------------------------------------------------------------

/-- Python str() of an optional string: "None" for a missing value. -/
def pyStrOpt : Option String → String
  | none => "None"
  | some s => s

/-- Wrap an optional string as a property value (None becomes null). -/
def optPV : Option String → PValue
  | none => PValue.null
  | some s => PValue.str s

/-- Strip a given character from both ends of a string
(Python str.strip(c) removes every leading and trailing occurrence). -/
def stripChar (c : Char) (s : String) : String :=
  String.mk (((s.data.dropWhile (· = c)).reverse.dropWhile (· = c)).reverse)

/-- Python str.strip(): remove leading and trailing whitespace, modelled
over the character list. -/
def pyStrip (s : String) : String :=
  String.mk (((s.data.dropWhile Char.isWhitespace).reverse.dropWhile Char.isWhitespace).reverse)

/-- SemanticMapper._code_text: prefer the text field, else the first coding
entry display (when non-empty), else "system|code" stripped of pipes. -/
def codeText : Option CodeableConcept → Option String
  | none => none
  | some cc =>
    match cc.text with
    | some t => some t
    | none =>
      match cc.coding with
      | [] => none
      | c :: _ =>
        let synth := stripChar '|' (c.system.getD "" ++ "|" ++ c.code.getD "")
        match c.display with
        | some d => if d = "" then some synth else some d
        | none => some synth

/-- SemanticMapper._value_text: quantity (value unit, stringified and
stripped), else string, else coded concept text — first present wins. -/
def valueText (r : Res) : Option String :=
  match r.valueQuantity with
  | some v => some (pyStrip (pyStrOpt v.value ++ " " ++ pyStrOpt v.unit))
  | none =>
    match r.valueString with
    | some s => some s
    | none =>
      match r.valueCodeableConcept with
      | some cc => codeText (some cc)
      | none => none

/-- SemanticMapper._ref: the reference field of a reference object. -/
def refOf : Option RefObj → Option String
  | some ro => ro.reference
  | none => none

/-- The HAS_SUBJECT edge emission shared by the handlers: only a truthy
(present, non-empty) reference produces an edge. -/
def addSubjectEdge (g : Graph) (rid : String) (r : Res) : Graph :=
  match refOf r.subject with
  | some s => if s = "" then g else addEdge g rid s "HAS_SUBJECT"
  | none => g

/-- The coding list of an observation code
(r.get("code", \x7b\x7d).get("coding", []) or []). -/
def codingList (r : Res) : List Coding :=
  match r.code with
  | none => []
  | some cc => cc.coding

-- ----------------------------------------------------------------
-- Per-type handlers
-- ----------------------------------------------------------------

/-- SemanticMapper._add_patient. -/
def addPatient (g : Graph) (rid : String) (r : Res) : Graph :=
  let name : Option String :=
    match r.name with
    | [] => none
    | nm :: _ => some (pyStrip (String.intercalate " " nm.given ++ " " ++ nm.family.getD ""))
  addNode g rid "Patient"
    [("gender", optPV r.gender), ("birthDate", optPV r.birthDate), ("name", optPV name)]

/-- One step of the coding loop of _add_observation: a coding entry with a
truthy system and code yields a merged Code node and a HAS_CODE edge. -/
def addCodingStep (rid : String) (g : Graph) (c : Coding) : Graph :=
  match c.system, c.code with
  | some s, some cv =>
    if s ≠ "" ∧ cv ≠ "" then
      let cid := "Code/" ++ s ++ "|" ++ cv
      let g1 := addNode g cid "Code"
        [("system", PValue.str s), ("code", PValue.str cv), ("display", optPV c.display)]
      addEdge g1 rid cid "HAS_CODE"
    else g
  | _, _ => g

/-- SemanticMapper._add_observation. -/
def addObservation (g : Graph) (rid : String) (r : Res) : Graph :=
  let g1 := addNode g rid "Observation"
    [("code", optPV (codeText r.code)), ("value", optPV (valueText r)),
     ("status", optPV r.status)]
  let g2 := addSubjectEdge g1 rid r
  (codingList r).foldl (addCodingStep rid) g2

/-- SemanticMapper._add_encounter. -/
def addEncounter (g : Graph) (rid : String) (r : Res) : Graph :=
  let g1 := addNode g rid "Encounter"
    [("status", optPV r.status), ("class", optPV (r.encClass.bind ClassObj.code))]
  addSubjectEdge g1 rid r

/-- SemanticMapper._add_condition. -/
def addCondition (g : Graph) (rid : String) (r : Res) : Graph :=
  let g1 := addNode g rid "Condition"
    [("code", optPV (codeText r.code)),
     ("clinicalStatus", optPV (r.clinicalStatus.bind TextObj.text))]
  addSubjectEdge g1 rid r

/-- SemanticMapper._add_medication_statement. -/
def addMedicationStatement (g : Graph) (rid : String) (r : Res) : Graph :=
  let g1 := addNode g rid "MedicationStatement"
    [("medication", optPV (codeText r.medicationCodeableConcept)),
     ("status", optPV r.status)]
  addSubjectEdge g1 rid r

/-- The node id of a sub-record: f-string "rtype/id" with str(None) = "None"
and a missing id defaulting to "unknown". -/
def resRid (r : Res) : String :=
  pyStrOpt r.resourceType ++ "/" ++ r.id.getD "unknown"

/-- SemanticMapper._ingest_resource: dispatch on the type tag; unrecognized
types are stored as a node of their raw type (falsy tags become "Unknown")
with the whole record stashed under "raw". -/
def ingestResource (g : Graph) (r : Res) : Graph :=
  let rid := resRid r
  if r.resourceType = some "Patient" then addPatient g rid r
  else if r.resourceType = some "Observation" then addObservation g rid r
  else if r.resourceType = some "Encounter" then addEncounter g rid r
  else if r.resourceType = some "Condition" then addCondition g rid r
  else if r.resourceType = some "MedicationStatement" then addMedicationStatement g rid r
  else
    let t := match r.resourceType with
      | some s => if s = "" then "Unknown" else s
      | none => "Unknown"
    addNode g rid t [("raw", PValue.rawRes r)]

-- ----------------------------------------------------------------
-- Derivation pass (fever rule)
-- ----------------------------------------------------------------

/-- Python str() of a property lookup result: a missing key or a null value
prints as "None"; a stashed raw record prints as a dict, whose text begins
with a brace and therefore never parses as a number — we model it by a
fixed brace token. -/
def pyStrPV : Option PValue → String
  | none => "None"
  | some PValue.null => "None"
  | some (PValue.str s) => s
  | some (PValue.rawRes _) => "\x7braw\x7d"

/-- First whitespace-separated token of a string (str.split()[0]);
none when the string has no token (the IndexError is caught). -/
def firstTok (s : String) : Option String :=
  let t := (s.data.dropWhile Char.isWhitespace).takeWhile (fun c => !c.isWhitespace)
  if t = [] then none else some (String.mk t)

/-- Nat value of a digit list (most significant first). -/
def digitsVal (l : List Char) : Nat :=
  l.foldl (fun n c => 10 * n + (c.toNat - '0'.toNat)) 0

/-- Python float() on the plain decimal literals the program handles:
optional sign, digits with at most one dot, at least one digit.  Parsed
exactly as a rational; anything else is a parse failure. -/
def parseFloatTok (s : String) : Option Rat :=
  let cs := s.data
  let body := match cs with
    | '-' :: t => t
    | '+' :: t => t
    | t => t
  let sign : Int := match cs with
    | '-' :: _ => -1
    | _ => 1
  let ip := body.takeWhile (fun c => c ≠ '.')
  let rest := body.drop ip.length
  let fp := match rest with
    | '.' :: t => t
    | _ => []
  if ip.all Char.isDigit ∧ fp.all Char.isDigit ∧ (ip ≠ [] ∨ fp ≠ []) then
    some (mkRat (sign * (digitsVal (ip ++ fp) : Int)) (10 ^ fp.length))
  else none

/-- The numeric value of a node: float(str(props.get("value")).split()[0]),
with every failure collapsed to none (the try/except). -/
def nodeNumber (n : Node) : Option Rat :=
  (firstTok (pyStrPV (lookupAL n.props "value"))).bind parseFloatTok

/-- First loop of _derive_simple_facts: scan HAS_CODE edges whose target is
a Code node for LOINC 8310-5 and whose source is an Observation node, and
collect the observation keys (in edge order, duplicates kept). -/
def tempsOf (g : Graph) : List String :=
  g.edges.foldl
    (fun acc e =>
      if e.rel = "HAS_CODE" then
        match lookupNode g e.dst with
        | none => acc
        | some cn =>
          if lookupAL cn.props "system" = some (PValue.str "http://loinc.org")
              ∧ lookupAL cn.props "code" = some (PValue.str "8310-5") then
            match lookupNode g e.src with
            | none => acc
            | some obs => if obs.type = "Observation" then acc ++ [e.src] else acc
          else acc
      else acc)
    []

/-- Body of the second loop of _derive_simple_facts for one candidate:
if its value parses and strictly exceeds 38, merge the Finding/Fever node,
then attach a HAS_FINDING edge from the first truthy HAS_SUBJECT target. -/
def deriveStep (g : Graph) (key : String) : Graph :=
  match lookupNode g key with
  | none => g
  | some obs =>
    match nodeNumber obs with
    | none => g
    | some q =>
      if 38 < q then
        let g1 := addNode g "Finding/Fever" "Finding" [("label", PValue.str "Fever")]
        match g1.edges.find? (fun e => decide (e.src = obs.id ∧ e.rel = "HAS_SUBJECT")) with
        | some e => if e.dst = "" then g1 else addEdge g1 e.dst "Finding/Fever" "HAS_FINDING"
        | none => g1
      else g

/-- SemanticMapper._derive_simple_facts. -/
def deriveSimpleFacts (g : Graph) : Graph :=
  (tempsOf g).foldl deriveStep g

-- ----------------------------------------------------------------
-- Main entry (load_bundle)
-- ----------------------------------------------------------------

/-- SemanticMapper.load_bundle on a parsed document: reject a non-Bundle
root tag, else ingest every entry resource (a missing resource key is the
empty object) and run the derivation pass. -/
def loadBundle (b : Bundle) : Except String Graph :=
  if b.resourceType = some "Bundle" then
    Except.ok (deriveSimpleFacts
      (b.entry.foldl (fun g en => ingestResource g (en.resource.getD emptyRes)) emptyGraph))
  else
    Except.error "Input must be a FHIR Bundle JSON."

/-- Whether mapping succeeds. -/
def mapsOk (b : Bundle) : Bool :=
  match loadBundle b with
  | Except.ok _ => true
  | Except.error _ => false

/-- The mapped graph of a document (the empty graph on a format error);
projection used to state concrete facts about successful runs. -/
def bundleGraph (b : Bundle) : Graph :=
  match loadBundle b with
  | Except.ok g => g
  | Except.error _ => emptyGraph

-- ----------------------------------------------------------------
-- population_graph.py: concept extraction and aggregation
-- ----------------------------------------------------------------

/-- concepts_from_graph: the ids of the nodes whose type is in the
inclusion set (Finding, Code), in node insertion order. -/
def conceptsFromGraph (g : Graph) : List String :=
  (g.nodes.filter (fun p => decide (p.2.type = "Finding" ∨ p.2.type = "Code"))).map Prod.fst

/-- String order decided over the character lists, which the kernel can
evaluate (the builtin instance walks byte iterators and cannot reduce). -/
instance (priority := 1100) strDecLt (a b : String) : Decidable (a < b) :=
  decidable_of_iff (a.data < b.data) String.lt_iff_toList_lt.symm

/-- Same for the ≤ order (s₁ ≤ s₂ iff not s₂ < s₁). -/
instance (priority := 1100) strDecLE (a b : String) : Decidable (a ≤ b) :=
  decidable_of_iff (¬ b < a) not_lt

/-- All ordered position pairs (i, j) with i < j of a list, in the order of
the two nested index loops of the aggregation step. -/
def pairsOf : List String → List (String × String)
  | [] => []
  | a :: t => t.map (fun b => (a, b)) ++ pairsOf t

/-- The aggregator accumulators: defaultdict(int) node_counts (support) and
pair_weight, insertion ordered. -/
structure AggState where
  nodeCounts : List (String × Nat)
  pairWeight : List ((String × String) × Nat)
deriving DecidableEq, Repr

/-- One record's accumulation: bump node_counts for every concept of the
set, then bump pair_weight for every ordered pair of the sorted concept
list (main, step 2 of population_graph.py).  Python sorted is the unique
stable sort for the ≤ order; insertion sort realizes it and lets the
kernel evaluate concrete runs. -/
def accumulate (st : AggState) (C : List String) : AggState :=
  let nc := C.foldl bumpAL st.nodeCounts
  let pw := (pairsOf (List.insertionSort (· ≤ ·) C)).foldl bumpAL st.pairWeight
  { nodeCounts := nc, pairWeight := pw }

/-- Aggregate all per-record concept sets. -/
def aggregate (sets : List (List String)) : AggState :=
  sets.foldl accumulate { nodeCounts := [], pairWeight := [] }

/-- node_counts read with default 0. -/
def support (st : AggState) (c : String) : Nat := valAt st.nodeCounts c

/-- pair_weight read with default 0. -/
def pairW (st : AggState) (p : String × String) : Nat := valAt st.pairWeight p

/-- An edge of the emitted aggregate graph (rel plus weight property). -/
structure MetaEdge where
  src : String
  dst : String
  rel : String
  weight : Nat
deriving DecidableEq, Repr

/-- The order realized by sorted(..., key=lambda x: -x[1]): weight
descending; Python sorted is stable, and so is List.insertionSort. -/
def wge (x y : (String × String) × Nat) : Prop := y.2 ≤ x.2

instance : DecidableRel wge := fun x y => Nat.decLe y.2 x.2

instance : IsTotal ((String × String) × Nat) wge := ⟨fun a b => le_total b.2 a.2⟩

instance : IsTrans ((String × String) × Nat) wge := ⟨fun _ _ _ h1 h2 => le_trans h2 h1⟩

/-- One pair_weight entry rendered as an aggregate edge. -/
def toMetaEdge (q : (String × String) × Nat) : MetaEdge :=
  { src := q.1.1, dst := q.1.2, rel := "CO_OCCURS_WITH", weight := q.2 }

/-- The emitted edges_json list (main, step 3 of population_graph.py):
pair_weight entries sorted by descending weight, zero weights filtered. -/
def metaEdges (pw : List ((String × String) × Nat)) : List MetaEdge :=
  ((List.insertionSort wge pw).filter (fun q => decide (0 < q.2))).map toMetaEdge

-- ----------------------------------------------------------------
-- Association list lemmas
-- ----------------------------------------------------------------

section ALLemmas

variable {K : Type} [DecidableEq K] {B : Type}

theorem lookupAL_append_some {d₁ d₂ : List (K × B)} {k : K} {v : B}
    (h : lookupAL d₁ k = some v) : lookupAL (d₁ ++ d₂) k = some v := by
  induction d₁ with
  | nil => simp [lookupAL] at h
  | cons hd tl ih =>
    obtain ⟨a, b⟩ := hd
    by_cases hak : a = k <;> simp_all [lookupAL]

theorem lookupAL_append_none {d₁ : List (K × B)} {k : K}
    (h : lookupAL d₁ k = none) (d₂ : List (K × B)) :
    lookupAL (d₁ ++ d₂) k = lookupAL d₂ k := by
  induction d₁ with
  | nil => rfl
  | cons hd tl ih =>
    obtain ⟨a, b⟩ := hd
    by_cases hak : a = k <;> simp_all [lookupAL]

theorem lookupAL_cons (a : K) (b : B) (t : List (K × B)) (k : K) :
    lookupAL ((a, b) :: t) k = if a = k then some b else lookupAL t k := rfl

theorem lookupAL_mapIf_self (d : List (K × B)) (k : K) (f : B → B) :
    lookupAL (d.map (fun p => if p.1 = k then (p.1, f p.2) else p)) k
      = (lookupAL d k).map f := by
  induction d with
  | nil => rfl
  | cons hd tl ih =>
    obtain ⟨a, b⟩ := hd
    show lookupAL ((if a = k then (a, f b) else (a, b)) :: _) k = _
    by_cases hak : a = k
    · rw [if_pos hak, lookupAL_cons, lookupAL_cons, if_pos hak, if_pos hak]
      rfl
    · rw [if_neg hak, lookupAL_cons, lookupAL_cons, if_neg hak, if_neg hak, ih]

theorem lookupAL_mapIf_ne (d : List (K × B)) {k k' : K} (f : B → B) (hk : k' ≠ k) :
    lookupAL (d.map (fun p => if p.1 = k then (p.1, f p.2) else p)) k'
      = lookupAL d k' := by
  induction d with
  | nil => rfl
  | cons hd tl ih =>
    obtain ⟨a, b⟩ := hd
    show lookupAL ((if a = k then (a, f b) else (a, b)) :: _) k' = _
    by_cases hak : a = k
    · have hak' : ¬ a = k' := fun h => hk (h ▸ hak)
      rw [if_pos hak, lookupAL_cons, lookupAL_cons, if_neg hak', if_neg hak', ih]
    · by_cases hak2 : a = k'
      · rw [if_neg hak, lookupAL_cons, lookupAL_cons, if_pos hak2, if_pos hak2]
      · rw [if_neg hak, lookupAL_cons, lookupAL_cons, if_neg hak2, if_neg hak2, ih]

theorem lookupAL_eq_none_iff {d : List (K × B)} {k : K} :
    lookupAL d k = none ↔ k ∉ d.map Prod.fst := by
  induction d with
  | nil => simp [lookupAL]
  | cons hd tl ih =>
    obtain ⟨a, b⟩ := hd
    rw [lookupAL_cons]
    by_cases hak : a = k
    · subst hak
      simp
    · rw [if_neg hak, ih]
      simp only [List.map_cons, List.mem_cons]
      constructor
      · intro hn hc
        rcases hc with hc | hc
        · exact hak hc.symm
        · exact hn hc
      · intro hn hc
        exact hn (Or.inr hc)

theorem lookupAL_mem {d : List (K × B)} {k : K} {v : B}
    (h : lookupAL d k = some v) : (k, v) ∈ d := by
  induction d with
  | nil => simp [lookupAL] at h
  | cons hd tl ih =>
    obtain ⟨a, b⟩ := hd
    rw [lookupAL_cons] at h
    by_cases hak : a = k
    · rw [if_pos hak] at h
      injection h with hbv
      subst hak
      subst hbv
      exact List.mem_cons_self _ _
    · rw [if_neg hak] at h
      exact List.mem_cons_of_mem _ (ih h)

theorem lookupAL_dictSet (d : List (K × B)) (k k' : K) (v : B) :
    lookupAL (dictSet d k v) k' = if k' = k then some v else lookupAL d k' := by
  unfold dictSet
  by_cases hs : (lookupAL d k).isSome
  · rw [if_pos hs]
    by_cases hk : k' = k
    · subst hk
      rw [if_pos rfl]
      obtain ⟨w, hw⟩ := Option.isSome_iff_exists.mp hs
      exact (lookupAL_mapIf_self d k' (fun _ => v)).trans (by rw [hw]; rfl)
    · rw [if_neg hk]
      exact lookupAL_mapIf_ne d (fun _ => v) hk
  · rw [if_neg hs]
    have hnone : lookupAL d k = none := Option.not_isSome_iff_eq_none.mp hs
    by_cases hk : k' = k
    · subst hk
      rw [if_pos rfl, lookupAL_append_none hnone, lookupAL_cons, if_pos rfl]
    · rw [if_neg hk]
      cases hx : lookupAL d k' with
      | some w => exact lookupAL_append_some hx
      | none =>
        rw [lookupAL_append_none hx, lookupAL_cons, if_neg (fun h => hk h.symm)]
        rfl

theorem lookupAL_dictUpdate_none {upd : List (K × B)} {k : K}
    (h : lookupAL upd k = none) (d : List (K × B)) :
    lookupAL (dictUpdate d upd) k = lookupAL d k := by
  induction upd generalizing d with
  | nil => rfl
  | cons hd tl ih =>
    obtain ⟨a, b⟩ := hd
    rw [lookupAL_cons] at h
    by_cases hak : a = k
    · rw [if_pos hak] at h
      cases h
    · rw [if_neg hak] at h
      show lookupAL (dictUpdate (dictSet d a b) tl) k = lookupAL d k
      rw [ih h, lookupAL_dictSet, if_neg (fun hc => hak hc.symm)]

theorem lookupAL_dictUpdate_some {upd : List (K × B)} {k : K} {v : B}
    (hnd : (upd.map Prod.fst).Nodup) (h : lookupAL upd k = some v)
    (d : List (K × B)) :
    lookupAL (dictUpdate d upd) k = some v := by
  induction upd generalizing d with
  | nil => simp [lookupAL] at h
  | cons hd tl ih =>
    obtain ⟨a, b⟩ := hd
    simp only [List.map_cons, List.nodup_cons] at hnd
    rw [lookupAL_cons] at h
    by_cases hak : a = k
    · rw [if_pos hak] at h
      subst hak
      have htl : lookupAL tl a = none := lookupAL_eq_none_iff.mpr hnd.1
      show lookupAL (dictUpdate (dictSet d a b) tl) a = some v
      rw [lookupAL_dictUpdate_none htl, lookupAL_dictSet, if_pos rfl]
      exact h
    · rw [if_neg hak] at h
      exact ih hnd.2 h _

theorem lookupAL_filter_of_none (p : K × B → Bool) {d : List (K × B)} {k : K}
    (h : lookupAL d k = none) : lookupAL (d.filter p) k = none := by
  rw [lookupAL_eq_none_iff] at h ⊢
  intro hmem
  exact h (List.Sublist.mem hmem ((List.filter_sublist d).map Prod.fst))

theorem lookupAL_filter (p : K × B → Bool) {d : List (K × B)} {k : K} {v : B}
    (hnd : (d.map Prod.fst).Nodup) (h : lookupAL d k = some v) :
    lookupAL (d.filter p) k = if p (k, v) then some v else none := by
  induction d with
  | nil => simp [lookupAL] at h
  | cons hd tl ih =>
    obtain ⟨a, b⟩ := hd
    simp only [List.map_cons, List.nodup_cons] at hnd
    rw [lookupAL_cons] at h
    by_cases hak : a = k
    · rw [if_pos hak] at h
      injection h with hbv
      subst hak
      subst hbv
      have htl : lookupAL tl a = none := lookupAL_eq_none_iff.mpr hnd.1
      rw [List.filter_cons]
      by_cases hp : p (a, b)
      · rw [if_pos hp, lookupAL_cons, if_pos rfl, if_pos hp]
      · rw [if_neg hp, if_neg hp, lookupAL_filter_of_none p htl]
    · rw [if_neg hak] at h
      rw [List.filter_cons]
      by_cases hp : p (a, b)
      · rw [if_pos hp, lookupAL_cons, if_neg hak, ih hnd.2 h]
      · rw [if_neg hp, ih hnd.2 h]

end ALLemmas

-- ----------------------------------------------------------------
-- Graph operation lemmas
-- ----------------------------------------------------------------

theorem lookupNode_addNode_existing {g : Graph} {rid : String} {n : Node}
    (t : String) (ps : List (String × PValue)) (h : lookupNode g rid = some n) :
    lookupNode (addNode g rid t ps) rid = some (mergeProps n ps) := by
  have hs : (lookupNode g rid).isSome := by rw [h]; rfl
  have h' : lookupAL g.nodes rid = some n := h
  unfold addNode
  rw [if_pos hs]
  exact (lookupAL_mapIf_self g.nodes rid (fun nd => mergeProps nd ps)).trans
    (by rw [h']; rfl)

theorem lookupNode_addNode_fresh {g : Graph} {rid : String}
    (t : String) (ps : List (String × PValue)) (h : lookupNode g rid = none) :
    lookupNode (addNode g rid t ps) rid = some { id := rid, type := t, props := ps } := by
  have hs : ¬ (lookupNode g rid).isSome = true := by rw [h]; simp
  have h' : lookupAL g.nodes rid = none := h
  unfold addNode
  rw [if_neg hs]
  show lookupAL (g.nodes ++ [(rid, _)]) rid = _
  rw [lookupAL_append_none h', lookupAL_cons, if_pos rfl]

theorem lookupNode_addNode_ne {g : Graph} {rid k : String}
    (t : String) (ps : List (String × PValue)) (hk : k ≠ rid) :
    lookupNode (addNode g rid t ps) k = lookupNode g k := by
  unfold addNode
  by_cases hs : (lookupNode g rid).isSome
  · rw [if_pos hs]
    exact lookupAL_mapIf_ne g.nodes (fun nd => mergeProps nd ps) hk
  · rw [if_neg hs]
    show lookupAL (g.nodes ++ [(rid, { id := rid, type := t, props := ps })]) k
        = lookupAL g.nodes k
    cases hx : lookupAL g.nodes k with
    | some w => exact lookupAL_append_some hx
    | none =>
      rw [lookupAL_append_none hx, lookupAL_cons, if_neg (fun h => hk h.symm)]
      rfl

theorem lookupNode_addNode_self_isSome (g : Graph) (rid t : String)
    (ps : List (String × PValue)) :
    (lookupNode (addNode g rid t ps) rid).isSome := by
  cases h : lookupNode g rid with
  | some n => rw [lookupNode_addNode_existing t ps h]; rfl
  | none => rw [lookupNode_addNode_fresh t ps h]; rfl

theorem lookupNode_addNode_isSome {g : Graph} {k : String}
    (rid t : String) (ps : List (String × PValue))
    (h : (lookupNode g k).isSome) :
    (lookupNode (addNode g rid t ps) k).isSome := by
  by_cases hk : k = rid
  · subst hk; exact lookupNode_addNode_self_isSome g k t ps
  · rw [lookupNode_addNode_ne t ps hk]; exact h

theorem edges_addNode (g : Graph) (rid t : String) (ps : List (String × PValue)) :
    (addNode g rid t ps).edges = g.edges := by
  unfold addNode
  split <;> rfl

theorem nodes_addEdge (g : Graph) (s d r : String) :
    (addEdge g s d r).nodes = g.nodes := rfl

theorem edges_addEdge (g : Graph) (s d r : String) :
    (addEdge g s d r).edges = g.edges ++ [{ src := s, dst := d, rel := r }] := rfl

/-- A property holding of a state and preserved by each step holds of the
whole fold. -/
theorem foldl_preserve {σ α : Type} {P : σ → Prop} {f : σ → α → σ}
    (hf : ∀ s x, P s → P (f s x)) :
    ∀ (l : List α) (s : σ), P s → P (l.foldl f s)
  | [], _, hs => hs
  | x :: t, s, hs => foldl_preserve hf t (f s x) (hf s x hs)

/-- A property established by one step applied to any state, and preserved
by all steps, holds of a fold over any list containing that element. -/
theorem foldl_establish {σ α : Type} {P : σ → Prop} {f : σ → α → σ}
    (hf : ∀ s x, P s → P (f s x)) {x : α} (hest : ∀ s, P (f s x)) :
    ∀ {l : List α}, x ∈ l → ∀ s, P (l.foldl f s)
  | [], hx, _ => nomatch hx
  | hd :: tl, hx, s => by
    rcases List.mem_cons.mp hx with h | h
    · subst h
      exact foldl_preserve hf tl (f s x) (hest s)
    · exact foldl_establish hf hest h (f s hd)

-- ----------------------------------------------------------------
-- Claim C5 and C10: node merge semantics
-- ----------------------------------------------------------------

/-- Claim C5: re-inserting an existing node id updates only the keys whose
new value is non-null; a non-null new value wins, a null new value or an
absent key leaves the old value intact, and every previously set property
either keeps its old value or is overwritten by a non-null new one. -/
theorem addNode_merge_semantics (g : Graph) (rid t : String)
    (ps : List (String × PValue)) (n : Node)
    (hn : lookupNode g rid = some n) (hnd : (ps.map Prod.fst).Nodup) :
    ∃ n', lookupNode (addNode g rid t ps) rid = some n'
      ∧ (∀ k v, lookupAL ps k = some v → v ≠ PValue.null → lookupAL n'.props k = some v)
      ∧ (∀ k, lookupAL ps k = none → lookupAL n'.props k = lookupAL n.props k)
      ∧ (∀ k, lookupAL ps k = some PValue.null → lookupAL n'.props k = lookupAL n.props k)
      ∧ (∀ k v₀, lookupAL n.props k = some v₀ →
          lookupAL n'.props k = some v₀
          ∨ ∃ v, lookupAL ps k = some v ∧ v ≠ PValue.null ∧ lookupAL n'.props k = some v) := by
  have hsub : ((ps.filter (fun kv => decide (kv.2 ≠ PValue.null))).map Prod.fst).Nodup :=
    ((List.filter_sublist ps).map Prod.fst).nodup hnd
  refine ⟨mergeProps n ps, lookupNode_addNode_existing t ps hn, ?_, ?_, ?_, ?_⟩
  · intro k v hk hv
    have hf := lookupAL_filter (fun kv => decide (kv.2 ≠ PValue.null)) hnd hk
    rw [if_pos (decide_eq_true hv)] at hf
    exact lookupAL_dictUpdate_some hsub hf n.props
  · intro k hk
    exact lookupAL_dictUpdate_none (lookupAL_filter_of_none _ hk) n.props
  · intro k hk
    have hf := lookupAL_filter (fun kv => decide (kv.2 ≠ PValue.null)) hnd hk
    rw [if_neg (fun h => (of_decide_eq_true h) rfl)] at hf
    exact lookupAL_dictUpdate_none hf n.props
  · intro k v₀ hk
    cases hx : lookupAL ps k with
    | none =>
      left
      rw [show lookupAL (mergeProps n ps).props k = lookupAL n.props k from
        lookupAL_dictUpdate_none (lookupAL_filter_of_none _ hx) n.props]
      exact hk
    | some v =>
      by_cases hv : v = PValue.null
      · left
        subst hv
        have hf := lookupAL_filter (fun kv => decide (kv.2 ≠ PValue.null)) hnd hx
        rw [if_neg (fun h => (of_decide_eq_true h) rfl)] at hf
        rw [show lookupAL (mergeProps n ps).props k = lookupAL n.props k from
          lookupAL_dictUpdate_none hf n.props]
        exact hk
      · right
        refine ⟨v, rfl, hv, ?_⟩
        have hf := lookupAL_filter (fun kv => decide (kv.2 ≠ PValue.null)) hnd hx
        rw [if_pos (decide_eq_true hv)] at hf
        exact lookupAL_dictUpdate_some hsub hf n.props

/-- Concrete witness node with two string properties. -/
def nW : Node :=
  { id := "X", type := "Patient", props := [("a", PValue.str "1"), ("b", PValue.str "2")] }

/-- Concrete witness graph holding just that node. -/
def gW : Graph := { nodes := [("X", nW)], edges := [] }

/-- Witness property list: a null for a, a new value for b, a null for c. -/
def psW : List (String × PValue) :=
  [("a", PValue.null), ("b", PValue.str "3"), ("c", PValue.null)]

/-- Witness for C5: on the concrete graph, the null does not overwrite and
the non-null value does. -/
theorem addNode_merge_semantics_witness :
    ∃ n', lookupNode (addNode gW "X" "T" psW) "X" = some n'
      ∧ lookupAL n'.props "a" = some (PValue.str "1")
      ∧ lookupAL n'.props "b" = some (PValue.str "3") := by
  obtain ⟨n', h1, h2, h3, h4, h5⟩ :=
    addNode_merge_semantics gW "X" "T" psW nW (by decide) (by decide)
  refine ⟨n', h1, ?_, ?_⟩
  · rw [h4 "a" (by decide)]; decide
  · exact h2 "b" (PValue.str "3") (by decide) (by decide)

/-- Claim C10: re-inserting an id never changes the stored node id or its
type tag, even when a different type tag is supplied. -/
theorem addNode_preserves_id_type (g : Graph) (rid t : String)
    (ps : List (String × PValue)) (n : Node) (hn : lookupNode g rid = some n) :
    ∃ n', lookupNode (addNode g rid t ps) rid = some n'
      ∧ n'.id = n.id ∧ n'.type = n.type :=
  ⟨mergeProps n ps, lookupNode_addNode_existing t ps hn, rfl, rfl⟩

/-- Witness for C10: re-inserting X with type tag "Observation" keeps type
"Patient". -/
theorem addNode_preserves_id_type_witness :
    ∃ n', lookupNode (addNode gW "X" "Observation" psW) "X" = some n'
      ∧ n'.id = "X" ∧ n'.type = "Patient" := by
  obtain ⟨n', h1, h2, h3⟩ :=
    addNode_preserves_id_type gW "X" "Observation" psW nW (by decide)
  exact ⟨n', h1, h2.trans rfl, h3.trans rfl⟩


-- ----------------------------------------------------------------
-- More graph operation lemmas
-- ----------------------------------------------------------------

theorem lookupNode_addEdge (g : Graph) (s d r : String) (k : String) :
    lookupNode (addEdge g s d r) k = lookupNode g k := rfl

/-- A node looked up with an included type puts its id in the concept set. -/
theorem mem_concepts_of_lookup {g : Graph} {cid : String} {n : Node}
    (h : lookupNode g cid = some n) (ht : n.type = "Finding" ∨ n.type = "Code") :
    cid ∈ conceptsFromGraph g := by
  unfold conceptsFromGraph
  apply List.mem_map.mpr
  refine ⟨(cid, n), ?_, rfl⟩
  exact List.mem_filter.mpr ⟨lookupAL_mem h, decide_eq_true ht⟩

/-- Dispatch lemma: an Observation-tagged record goes to _add_observation. -/
theorem ingestResource_observation {g : Graph} {r : Res}
    (hr : r.resourceType = some "Observation") :
    ingestResource g r = addObservation g (resRid r) r := by
  unfold ingestResource
  rw [hr]
  rfl

-- ----------------------------------------------------------------
-- Claim C1: the fever threshold example
-- ----------------------------------------------------------------

/-- The example Patient/p1 sub-record. -/
def patientP1 : Res :=
  { resourceType := some "Patient", id := some "p1", name := [{ family := some "Doe", given := ["A"] }] }

/-- The example temperature Observation (LOINC 8310-5, subject Patient/p1)
with the given printed quantity value. -/
def obsTemp (v : String) : Res :=
  { resourceType := some "Observation", id := some "o1", code := some { text := some "Body temperature", coding := [{ system := some "http://loinc.org", code := some "8310-5" }] }, subject := some { reference := some "Patient/p1" }, valueQuantity := some { value := some v, unit := some "Celsius" } }

/-- The example document: the patient plus one temperature observation. -/
def bundleTemp (v : String) : Bundle :=
  { resourceType := some "Bundle", entry := [{ resource := some patientP1 }, { resource := some (obsTemp v) }] }

/-- Claim C1: on the example document, value "38.6 Celsius" yields node
Finding/Fever and edge Patient/p1 --HAS_FINDING--> Finding/Fever; with
"37.5 Celsius" neither is produced, and the comparison with the threshold
38.0 is strict: "38.0 Celsius" produces no fever either. -/
theorem fever_threshold_example :
    mapsOk (bundleTemp "38.6") = true
    ∧ (lookupNode (bundleGraph (bundleTemp "38.6")) "Finding/Fever").isSome = true
    ∧ ({ src := "Patient/p1", dst := "Finding/Fever", rel := "HAS_FINDING" } : Edge)
        ∈ (bundleGraph (bundleTemp "38.6")).edges
    ∧ mapsOk (bundleTemp "37.5") = true
    ∧ lookupNode (bundleGraph (bundleTemp "37.5")) "Finding/Fever" = none
    ∧ (bundleGraph (bundleTemp "37.5")).edges.all
        (fun e => decide (e.rel ≠ "HAS_FINDING")) = true
    ∧ mapsOk (bundleTemp "38.0") = true
    ∧ lookupNode (bundleGraph (bundleTemp "38.0")) "Finding/Fever" = none := by
  decide

-- ----------------------------------------------------------------
-- Claim C7: format error iff wrong root tag; graceful degradation
-- ----------------------------------------------------------------

/-- A well-tagged bundle whose single Patient record has every optional
field missing. -/
def bareBundle : Bundle :=
  { resourceType := some "Bundle", entry := [{ resource := some { emptyRes with resourceType := some "Patient" } }] }

/-- Claim C7: loading raises the format error exactly when the root type
tag is not "Bundle"; with the right tag mapping always succeeds, and a
record with all optional fields missing yields a node whose corresponding
properties are null. -/
theorem loadBundle_format_error :
    (∀ b : Bundle, (∃ m, loadBundle b = Except.error m) ↔ b.resourceType ≠ some "Bundle")
    ∧ (∀ b : Bundle, b.resourceType = some "Bundle" → ∃ g, loadBundle b = Except.ok g)
    ∧ lookupNode (bundleGraph bareBundle) "Patient/unknown"
        = some { id := "Patient/unknown", type := "Patient", props := [("gender", PValue.null), ("birthDate", PValue.null), ("name", PValue.null)] } := by
  refine ⟨?_, ?_, by decide⟩
  · intro b
    unfold loadBundle
    by_cases hb : b.resourceType = some "Bundle"
    · rw [if_pos hb]
      simp [hb]
    · rw [if_neg hb]
      simp [hb]
  · intro b hb
    unfold loadBundle
    rw [if_pos hb]
    exact ⟨_, rfl⟩

/-- Witness for C7 at the concrete documents. -/
theorem loadBundle_format_error_witness :
    (∃ g, loadBundle bareBundle = Except.ok g)
    ∧ (∃ m, loadBundle { resourceType := some "Patient", entry := [] } = Except.error m) :=
  ⟨loadBundle_format_error.2.1 bareBundle rfl,
   (loadBundle_format_error.1 { resourceType := some "Patient", entry := [] }).mpr (by decide)⟩

-- ----------------------------------------------------------------
-- Claim C4: Code nodes and HAS_CODE edges per coding entry
-- ----------------------------------------------------------------

/-- Observation whose single coding entry has neither system nor code. -/
def obsNoSys : Res :=
  { resourceType := some "Observation", id := some "o2", code := some { coding := [{ display := some "x" }] }, valueString := some "ok" }

/-- Document holding just that observation. -/
def bundleNoSys : Bundle :=
  { resourceType := some "Bundle", entry := [{ resource := some obsNoSys }] }

/-- Counterexample to C4 as stated: the observation has one coding entry,
mapping succeeds, yet no Code node and no HAS_CODE edge is produced,
because the entry lacks a truthy system and code. -/
theorem hasCode_counterexample :
    (codingList obsNoSys).length = 1
    ∧ mapsOk bundleNoSys = true
    ∧ (bundleGraph bundleNoSys).nodes.all (fun p => decide (p.2.type ≠ "Code")) = true
    ∧ (bundleGraph bundleNoSys).edges.all (fun e => decide (e.rel ≠ "HAS_CODE")) = true := by
  decide

/-- Claim C4 as amended: every coding entry whose system and code are both
present and non-empty yields a (merged) Code node with id
Code/<system>|<code> and a HAS_CODE edge from the observation to it. -/
theorem hasCode_per_coding (g : Graph) (r : Res) (c : Coding) (s cv : String)
    (hr : r.resourceType = some "Observation")
    (hc : c ∈ codingList r) (hs : c.system = some s) (hs0 : s ≠ "")
    (hcv : c.code = some cv) (hcv0 : cv ≠ "") :
    (lookupNode (ingestResource g r) ("Code/" ++ s ++ "|" ++ cv)).isSome = true
    ∧ ({ src := resRid r, dst := "Code/" ++ s ++ "|" ++ cv, rel := "HAS_CODE" } : Edge)
        ∈ (ingestResource g r).edges := by
  rw [ingestResource_observation hr]
  unfold addObservation
  refine foldl_establish
    (P := fun st => (lookupNode st ("Code/" ++ s ++ "|" ++ cv)).isSome = true
      ∧ ({ src := resRid r, dst := "Code/" ++ s ++ "|" ++ cv, rel := "HAS_CODE" } : Edge)
          ∈ st.edges)
    ?_ ?_ hc _
  · intro st c' hP
    cases hsy : c'.system with
    | none => simpa only [addCodingStep, hsy] using hP
    | some s' =>
      cases hco : c'.code with
      | none => simpa only [addCodingStep, hsy, hco] using hP
      | some cv' =>
        simp only [addCodingStep, hsy, hco]
        by_cases hcond : s' ≠ "" ∧ cv' ≠ ""
        · rw [if_pos hcond]
          constructor
          · rw [lookupNode_addEdge]
            exact lookupNode_addNode_isSome _ _ _ hP.1
          · rw [edges_addEdge, edges_addNode]
            exact List.mem_append_left _ hP.2
        · rw [if_neg hcond]
          exact hP
  · intro st
    simp only [addCodingStep, hs, hcv]
    rw [if_pos ⟨hs0, hcv0⟩]
    constructor
    · rw [lookupNode_addEdge]
      exact lookupNode_addNode_self_isSome _ _ _ _
    · rw [edges_addEdge, edges_addNode]
      exact List.mem_append_right _ (List.mem_singleton.mpr rfl)

/-- Witness for the amended C4 on the concrete 38.6 observation. -/
theorem hasCode_per_coding_witness :
    (lookupNode (ingestResource emptyGraph (obsTemp "38.6")) "Code/http://loinc.org|8310-5").isSome = true
    ∧ ({ src := resRid (obsTemp "38.6"), dst := "Code/http://loinc.org|8310-5", rel := "HAS_CODE" } : Edge)
        ∈ (ingestResource emptyGraph (obsTemp "38.6")).edges :=
  hasCode_per_coding emptyGraph (obsTemp "38.6")
    { system := some "http://loinc.org", code := some "8310-5" } "http://loinc.org" "8310-5"
    (by decide) (by decide) (by decide) (by decide) (by decide) (by decide)


-- ----------------------------------------------------------------
-- Claim C8: unparseable values are skipped, not fatal
-- ----------------------------------------------------------------

/-- A candidate whose value does not parse leaves the graph unchanged. -/
theorem deriveStep_of_unparseable {g : Graph} {key : String} {n : Node}
    (hn : lookupNode g key = some n) (hv : nodeNumber n = none) :
    deriveStep g key = g := by
  simp only [deriveStep, hn, hv]

/-- Claim C8: a temperature candidate whose value summary has no parseable
leading numeric token contributes nothing — the derivation pass equals the
run with that candidate deleted, so no Finding node or HAS_FINDING edge is
added on its account and the remaining candidates are still processed;
no error is raised (the embedding is total). -/
theorem unparseable_candidate_skipped (g : Graph) (key : String)
    (l₁ l₂ : List String) (n : Node)
    (ht : tempsOf g = l₁ ++ key :: l₂)
    (hn : lookupNode (l₁.foldl deriveStep g) key = some n)
    (hv : nodeNumber n = none) :
    deriveSimpleFacts g = (l₁ ++ l₂).foldl deriveStep g := by
  unfold deriveSimpleFacts
  rw [ht, List.foldl_append, List.foldl_cons,
    deriveStep_of_unparseable hn hv, List.foldl_append]

/-- Observation on the monitored code whose value text is non-numeric. -/
def obsBad : Res :=
  { resourceType := some "Observation", id := some "o1", code := some { coding := [{ system := some "http://loinc.org", code := some "8310-5" }] }, valueString := some "high" }

/-- The ingested (pre-derivation) graph of that observation. -/
def gBad : Graph := ingestResource emptyGraph obsBad

/-- The observation node as it sits in gBad. -/
def nBad : Node :=
  { id := "Observation/o1", type := "Observation", props := [("code", PValue.str "http://loinc.org|8310-5"), ("value", PValue.str "high"), ("status", PValue.null)] }

/-- Witness for C8: with the sole candidate unparseable, the derivation
pass is the identity. -/
theorem unparseable_candidate_skipped_witness :
    deriveSimpleFacts gBad = gBad :=
  unparseable_candidate_skipped gBad "Observation/o1" [] [] nBad
    (by decide) (by decide) (by decide)

-- ----------------------------------------------------------------
-- Claim C9: finding inserted even without a subject edge
-- ----------------------------------------------------------------

/-- Claim C9: when a candidate parses above the threshold but its node has
no outgoing HAS_SUBJECT edge, the Finding/Fever node is still inserted
(with type Finding, also after a merge), no edge at all is added, and the
finding therefore shows up in the record concept set. -/
theorem finding_without_subject (g : Graph) (key : String) (n : Node) (q : Rat)
    (hn : lookupNode g key = some n)
    (hq : nodeNumber n = some q) (h38 : 38 < q)
    (hsub : ∀ e ∈ g.edges, ¬(e.src = n.id ∧ e.rel = "HAS_SUBJECT"))
    (hty : (lookupNode g "Finding/Fever").elim True (fun m => m.type = "Finding")) :
    ∃ nf, lookupNode (deriveStep g key) "Finding/Fever" = some nf
      ∧ nf.type = "Finding"
      ∧ (deriveStep g key).edges = g.edges
      ∧ "Finding/Fever" ∈ conceptsFromGraph (deriveStep g key) := by
  have hfind : (addNode g "Finding/Fever" "Finding" [("label", PValue.str "Fever")]).edges.find?
      (fun e => decide (e.src = n.id ∧ e.rel = "HAS_SUBJECT")) = none := by
    rw [edges_addNode]
    exact List.find?_eq_none.mpr (fun e he h => hsub e he (of_decide_eq_true h))
  have hstep : deriveStep g key
      = addNode g "Finding/Fever" "Finding" [("label", PValue.str "Fever")] := by
    simp only [deriveStep, hn, hq]
    rw [if_pos h38]
    simp only [hfind]
  rw [hstep, edges_addNode]
  cases hfev : lookupNode g "Finding/Fever" with
  | none =>
    refine ⟨_, lookupNode_addNode_fresh _ _ hfev, rfl, rfl, ?_⟩
    exact mem_concepts_of_lookup (lookupNode_addNode_fresh _ _ hfev) (Or.inl rfl)
  | some m =>
    rw [hfev] at hty
    have htym : m.type = "Finding" := hty
    refine ⟨_, lookupNode_addNode_existing _ _ hfev, htym, rfl, ?_⟩
    exact mem_concepts_of_lookup (lookupNode_addNode_existing _ _ hfev) (Or.inl htym)

/-- Observation on the monitored code, above threshold, with no subject. -/
def obsHot : Res :=
  { resourceType := some "Observation", id := some "o1", code := some { coding := [{ system := some "http://loinc.org", code := some "8310-5" }] }, valueQuantity := some { value := some "39.0", unit := some "Celsius" } }

/-- The ingested (pre-derivation) graph of that observation. -/
def gHot : Graph := ingestResource emptyGraph obsHot

/-- The observation node as it sits in gHot. -/
def nHot : Node :=
  { id := "Observation/o1", type := "Observation", props := [("code", PValue.str "http://loinc.org|8310-5"), ("value", PValue.str "39.0 Celsius"), ("status", PValue.null)] }

/-- Witness for C9 on the concrete subject-less observation. -/
theorem finding_without_subject_witness :
    ∃ nf, lookupNode (deriveStep gHot "Observation/o1") "Finding/Fever" = some nf
      ∧ nf.type = "Finding"
      ∧ (deriveStep gHot "Observation/o1").edges = gHot.edges
      ∧ "Finding/Fever" ∈ conceptsFromGraph (deriveStep gHot "Observation/o1") :=
  finding_without_subject gHot "Observation/o1" nHot 39
    (by decide) (by decide) (by decide) (by decide) (by exact trivial)


-- ----------------------------------------------------------------
-- Aggregation lemmas
-- ----------------------------------------------------------------

section BumpLemmas

variable {K : Type} [DecidableEq K]

theorem valAt_bumpAL_self (d : List (K × Nat)) (k : K) :
    valAt (bumpAL d k) k = valAt d k + 1 := by
  unfold bumpAL valAt
  by_cases hs : (lookupAL d k).isSome
  · rw [if_pos hs]
    obtain ⟨w, hw⟩ := Option.isSome_iff_exists.mp hs
    rw [show lookupAL (d.map fun p => if p.1 = k then (p.1, p.2 + 1) else p) k
        = (lookupAL d k).map (fun x => x + 1) from lookupAL_mapIf_self d k (fun x => x + 1)]
    rw [hw]
    rfl
  · rw [if_neg hs]
    have hnone : lookupAL d k = none := Option.not_isSome_iff_eq_none.mp hs
    rw [lookupAL_append_none hnone, hnone, lookupAL_cons, if_pos rfl]
    rfl

theorem valAt_bumpAL_ne (d : List (K × Nat)) {k k' : K} (h : k' ≠ k) :
    valAt (bumpAL d k) k' = valAt d k' := by
  unfold bumpAL valAt
  by_cases hs : (lookupAL d k).isSome
  · rw [if_pos hs]
    rw [show lookupAL (d.map fun p => if p.1 = k then (p.1, p.2 + 1) else p) k'
        = lookupAL d k' from lookupAL_mapIf_ne d (fun x => x + 1) h]
  · rw [if_neg hs]
    cases hx : lookupAL d k' with
    | some w => rw [lookupAL_append_some hx]
    | none =>
      rw [lookupAL_append_none hx, lookupAL_cons, if_neg (fun hc => h hc.symm)]
      rfl

theorem valAt_foldl_bumpAL : ∀ (l : List K) (d : List (K × Nat)) (k : K),
    valAt (l.foldl bumpAL d) k = valAt d k + l.countP (fun y => decide (y = k))
  | [], d, k => by simp
  | x :: t, d, k => by
    rw [List.foldl_cons, valAt_foldl_bumpAL t (bumpAL d x) k, List.countP_cons]
    by_cases hx : x = k
    · subst hx
      rw [valAt_bumpAL_self, if_pos (decide_eq_true rfl)]
      omega
    · rw [valAt_bumpAL_ne d (fun hc => hx hc.symm),
        if_neg (fun hd => hx (of_decide_eq_true hd))]
      omega

/-- countP of an equality test is 1 on a duplicate-free list containing the
element. -/
theorem countP_eq_one_of_nodup_mem {l : List K} {a : K}
    (hnd : l.Nodup) (ha : a ∈ l) : l.countP (fun y => decide (y = a)) = 1 := by
  induction l with
  | nil => cases ha
  | cons x t ih =>
    rw [List.nodup_cons] at hnd
    rw [List.countP_cons]
    rcases List.mem_cons.mp ha with heq | hat
    · have h0 : t.countP (fun y => decide (y = a)) = 0 :=
        List.countP_eq_zero.mpr (fun y hy hd => hnd.1 (heq ▸ (of_decide_eq_true hd) ▸ hy))
      rw [h0, if_pos (decide_eq_true heq.symm)]
    · have hxa : ¬ x = a := fun hc => hnd.1 (hc ▸ hat)
      rw [if_neg (fun hd => hxa (of_decide_eq_true hd)), ih hnd.2 hat]

/-- countP of an equality test is 0 when the element is absent. -/
theorem countP_eq_zero_of_not_mem {l : List K} {a : K}
    (ha : a ∉ l) : l.countP (fun y => decide (y = a)) = 0 :=
  List.countP_eq_zero.mpr (fun y hy hd => ha ((of_decide_eq_true hd) ▸ hy))

end BumpLemmas

theorem pairsOf_fst_mem : ∀ {l : List String} {p : String × String},
    p ∈ pairsOf l → p.1 ∈ l ∧ p.2 ∈ l := by
  intro l
  induction l with
  | nil => intro p h; cases h
  | cons x t ih =>
    intro p h
    rcases List.mem_append.mp h with h | h
    · obtain ⟨b, hb, rfl⟩ := List.mem_map.mp h
      exact ⟨List.mem_cons_self _ _, List.mem_cons_of_mem _ hb⟩
    · obtain ⟨h1, h2⟩ := ih h
      exact ⟨List.mem_cons_of_mem _ h1, List.mem_cons_of_mem _ h2⟩

theorem mem_pairsOf_sorted : ∀ {l : List String}, l.Pairwise (· < ·) →
    ∀ {a b : String}, ((a, b) ∈ pairsOf l ↔ a ∈ l ∧ b ∈ l ∧ a < b) := by
  intro l
  induction l with
  | nil => intro _ a b; simp [pairsOf]
  | cons x t ih =>
    intro hs a b
    have hx : ∀ y ∈ t, x < y := (List.pairwise_cons.mp hs).1
    have hst : t.Pairwise (· < ·) := (List.pairwise_cons.mp hs).2
    constructor
    · intro h
      rcases List.mem_append.mp h with h | h
      · obtain ⟨c, hc, hceq⟩ := List.mem_map.mp h
        injection hceq with h1 h2
        subst h1
        subst h2
        exact ⟨List.mem_cons_self _ _, List.mem_cons_of_mem _ hc, hx c hc⟩
      · obtain ⟨h1, h2, h3⟩ := (ih hst).mp h
        exact ⟨List.mem_cons_of_mem _ h1, List.mem_cons_of_mem _ h2, h3⟩
    · rintro ⟨ha, hb, hab⟩
      rcases List.mem_cons.mp ha with heqa | hat
      · rcases List.mem_cons.mp hb with heqb | hbt
        · rw [heqa, heqb] at hab
          exact absurd hab (lt_irrefl x)
        · refine List.mem_append.mpr (Or.inl (List.mem_map.mpr ⟨b, hbt, ?_⟩))
          rw [heqa]
      · rcases List.mem_cons.mp hb with heqb | hbt
        · exfalso
          have hxa : x < a := hx a hat
          rw [heqb] at hab
          exact lt_irrefl x (lt_trans hxa hab)
        · exact List.mem_append.mpr (Or.inr ((ih hst).mpr ⟨hat, hbt, hab⟩))

theorem nodup_pairsOf : ∀ {l : List String}, l.Nodup → (pairsOf l).Nodup := by
  intro l
  induction l with
  | nil => intro _; exact List.nodup_nil
  | cons x t ih =>
    intro hnd
    rw [List.nodup_cons] at hnd
    have hinj : Function.Injective (fun b : String => (x, b)) := by
      intro b c hbc
      injection hbc with _ h2
    show ((t.map (fun b => (x, b))) ++ pairsOf t).Nodup
    rw [List.nodup_append]
    refine ⟨hnd.2.map hinj, ih hnd.2, ?_⟩
    intro p hp hp2
    obtain ⟨b, _, rfl⟩ := List.mem_map.mp hp
    exact hnd.1 (pairsOf_fst_mem hp2).1

-- ----------------------------------------------------------------
-- Sorted concept list characterization
-- ----------------------------------------------------------------

/-- Sorting a duplicate-free concept list yields a strictly increasing
list. -/
theorem sorted_strict (C : List String) (h : C.Nodup) :
    (List.insertionSort (· ≤ ·) C).Pairwise (· < ·) := by
  have hnd : (List.insertionSort (· ≤ ·) C).Nodup :=
    ((List.perm_insertionSort (· ≤ ·) C).nodup_iff).mpr h
  have hle : (List.insertionSort (· ≤ ·) C).Pairwise (· ≤ ·) :=
    List.sorted_insertionSort (· ≤ ·) C
  exact (hle.and hnd).imp (fun h => lt_of_le_of_ne h.1 h.2)

/-- Each unordered pair of a duplicate-free concept set is counted exactly
once among the ordered pairs of its sorted form, keyed smaller-first. -/
theorem count_pairsOf_sorted (C : List String) (h : C.Nodup) (a b : String) :
    (pairsOf (List.insertionSort (· ≤ ·) C)).countP (fun q => decide (q = (a, b)))
      = if a ∈ C ∧ b ∈ C ∧ a < b then 1 else 0 := by
  have hs := sorted_strict C h
  have hnd := nodup_pairsOf (((List.perm_insertionSort (· ≤ ·) C).nodup_iff).mpr h)
  by_cases hmem : a ∈ C ∧ b ∈ C ∧ a < b
  · rw [if_pos hmem]
    refine countP_eq_one_of_nodup_mem hnd ((mem_pairsOf_sorted hs).mpr ?_)
    exact ⟨(List.mem_insertionSort _).mpr hmem.1, (List.mem_insertionSort _).mpr hmem.2.1, hmem.2.2⟩
  · rw [if_neg hmem]
    refine countP_eq_zero_of_not_mem (fun hc => hmem ?_)
    obtain ⟨h1, h2, h3⟩ := (mem_pairsOf_sorted hs).mp hc
    exact ⟨(List.mem_insertionSort _).mp h1, (List.mem_insertionSort _).mp h2, h3⟩

-- ----------------------------------------------------------------
-- Accumulation characterization
-- ----------------------------------------------------------------

theorem support_accumulate (st : AggState) {C : List String} (hC : C.Nodup)
    (c : String) :
    support (accumulate st C) c = support st c + (if c ∈ C then 1 else 0) := by
  show valAt (C.foldl bumpAL st.nodeCounts) c = _
  rw [valAt_foldl_bumpAL]
  by_cases hc : c ∈ C
  · rw [if_pos hc, countP_eq_one_of_nodup_mem hC hc]
    rfl
  · rw [if_neg hc, countP_eq_zero_of_not_mem hc]
    rfl

theorem pairW_accumulate (st : AggState) {C : List String} (hC : C.Nodup)
    (a b : String) :
    pairW (accumulate st C) (a, b)
      = pairW st (a, b) + (if a ∈ C ∧ b ∈ C ∧ a < b then 1 else 0) := by
  show valAt ((pairsOf (List.insertionSort (· ≤ ·) C)).foldl bumpAL st.pairWeight) (a, b) = _
  rw [valAt_foldl_bumpAL, count_pairsOf_sorted C hC a b]
  rfl

theorem support_foldl : ∀ (sets : List (List String)) (st : AggState),
    (∀ C ∈ sets, C.Nodup) → ∀ c : String,
    support (sets.foldl accumulate st) c
      = support st c + sets.countP (fun C => decide (c ∈ C))
  | [], _, _, _ => by simp
  | C :: t, st, hn, c => by
    rw [List.foldl_cons,
      support_foldl t (accumulate st C) (fun D hD => hn D (List.mem_cons_of_mem _ hD)) c,
      support_accumulate st (hn C (List.mem_cons_self _ _)) c, List.countP_cons]
    by_cases hc : c ∈ C
    · rw [if_pos hc, if_pos (decide_eq_true hc)]
      omega
    · rw [if_neg hc, if_neg (fun hd => hc (of_decide_eq_true hd))]
      omega

theorem pairW_foldl : ∀ (sets : List (List String)) (st : AggState),
    (∀ C ∈ sets, C.Nodup) → ∀ a b : String,
    pairW (sets.foldl accumulate st) (a, b)
      = pairW st (a, b) + sets.countP (fun C => decide (a ∈ C ∧ b ∈ C ∧ a < b))
  | [], _, _, _, _ => by simp
  | C :: t, st, hn, a, b => by
    rw [List.foldl_cons,
      pairW_foldl t (accumulate st C) (fun D hD => hn D (List.mem_cons_of_mem _ hD)) a b,
      pairW_accumulate st (hn C (List.mem_cons_self _ _)) a b, List.countP_cons]
    by_cases hc : a ∈ C ∧ b ∈ C ∧ a < b
    · rw [if_pos hc, if_pos (decide_eq_true hc)]
      omega
    · rw [if_neg hc, if_neg (fun hd => hc (of_decide_eq_true hd))]
      omega

-- ----------------------------------------------------------------
-- Claim C2: aggregation counts and order independence
-- ----------------------------------------------------------------

/-- countP is invariant along pointwise permutations when the predicate is
permutation invariant. -/
theorem countP_eq_of_forall₂_perm {p : List String → Bool}
    (hcong : ∀ C C', C.Perm C' → p C = p C') :
    ∀ {l l' : List (List String)}, List.Forall₂ List.Perm l l' →
      l.countP p = l'.countP p := by
  intro l l' h
  induction h with
  | nil => rfl
  | cons hCC _ ih => rw [List.countP_cons, List.countP_cons, ih, hcong _ _ hCC]

/-- Nodup carries across pointwise permutations. -/
theorem nodup_of_forall₂_perm :
    ∀ {l l' : List (List String)}, List.Forall₂ List.Perm l l' →
      (∀ C ∈ l, C.Nodup) → ∀ C' ∈ l', C'.Nodup := by
  intro l l' h
  induction h with
  | nil => intro _ _ h; cases h
  | cons hCC htl ih =>
    intro hn C' hC'
    rcases List.mem_cons.mp hC' with rfl | hmem
    · exact hCC.nodup_iff.mp (hn _ (List.mem_cons_self _ _))
    · exact ih (fun D hD => hn D (List.mem_cons_of_mem _ hD)) C' hmem

/-- Claim C2: for duplicate-free concept sets, node support counts the
records containing a concept; pair_weight counts, once per record, each
unordered pair keyed with the lexicographically smaller concept first; and
both resulting maps are unchanged when每 record set is presented in any
other iteration order (pointwise permutation). -/
theorem aggregate_pair_counting (sets sets' : List (List String))
    (hn : ∀ C ∈ sets, C.Nodup) (hp : List.Forall₂ List.Perm sets sets') :
    (∀ c, support (aggregate sets) c = sets.countP (fun C => decide (c ∈ C)))
    ∧ (∀ a b, pairW (aggregate sets) (a, b)
        = sets.countP (fun C => decide (a ∈ C ∧ b ∈ C ∧ a < b)))
    ∧ (∀ c, support (aggregate sets') c = support (aggregate sets) c)
    ∧ (∀ a b, pairW (aggregate sets') (a, b) = pairW (aggregate sets) (a, b)) := by
  have hn' : ∀ C' ∈ sets', C'.Nodup := nodup_of_forall₂_perm hp hn
  have hsupp : ∀ c, support (aggregate sets) c
      = sets.countP (fun C => decide (c ∈ C)) := by
    intro c
    show support (sets.foldl accumulate { nodeCounts := [], pairWeight := [] }) c = _
    rw [support_foldl sets _ hn c]
    exact Nat.zero_add _
  have hpw : ∀ a b, pairW (aggregate sets) (a, b)
      = sets.countP (fun C => decide (a ∈ C ∧ b ∈ C ∧ a < b)) := by
    intro a b
    show pairW (sets.foldl accumulate { nodeCounts := [], pairWeight := [] }) (a, b) = _
    rw [pairW_foldl sets _ hn a b]
    exact Nat.zero_add _
  have hsupp' : ∀ c, support (aggregate sets') c
      = sets'.countP (fun C => decide (c ∈ C)) := by
    intro c
    show support (sets'.foldl accumulate { nodeCounts := [], pairWeight := [] }) c = _
    rw [support_foldl sets' _ hn' c]
    exact Nat.zero_add _
  have hpw' : ∀ a b, pairW (aggregate sets') (a, b)
      = sets'.countP (fun C => decide (a ∈ C ∧ b ∈ C ∧ a < b)) := by
    intro a b
    show pairW (sets'.foldl accumulate { nodeCounts := [], pairWeight := [] }) (a, b) = _
    rw [pairW_foldl sets' _ hn' a b]
    exact Nat.zero_add _
  refine ⟨hsupp, hpw, ?_, ?_⟩
  · intro c
    rw [hsupp c, hsupp' c]
    exact (countP_eq_of_forall₂_perm
      (fun C C' hperm => decide_eq_decide.mpr hperm.mem_iff) hp).symm
  · intro a b
    rw [hpw a b, hpw' a b]
    refine (countP_eq_of_forall₂_perm (fun C C' hperm => decide_eq_decide.mpr ?_) hp).symm
    exact and_congr hperm.mem_iff (and_congr hperm.mem_iff Iff.rfl)

/-- Witness for C2 at two permuted presentations of the same records. -/
theorem aggregate_pair_counting_witness :
    support (aggregate [["B", "A"], ["A"]]) "A" = 2
    ∧ pairW (aggregate [["B", "A"], ["A"]]) ("A", "B") = 1
    ∧ pairW (aggregate [["A", "B"], ["A"]]) ("A", "B")
        = pairW (aggregate [["B", "A"], ["A"]]) ("A", "B") := by
  have h := aggregate_pair_counting [["B", "A"], ["A"]] [["A", "B"], ["A"]]
    (by decide)
    (List.Forall₂.cons (List.Perm.swap "A" "B" [])
      (List.Forall₂.cons (List.Perm.refl ["A"]) List.Forall₂.nil))
  exact ⟨(h.1 "A").trans (by decide), (h.2.1 "A" "B").trans (by decide),
    h.2.2.2 "A" "B"⟩

-- ----------------------------------------------------------------
-- Claim C6: support dominates incident pair weights, at every step
-- ----------------------------------------------------------------

/-- Claim C6: after any number of accumulation steps, a concept support is
at least every pair weight incident to it, in either key orientation. -/
theorem support_ge_pair_weight (sets : List (List String))
    (hn : ∀ C ∈ sets, C.Nodup) (m : Nat) (c x : String) :
    pairW (aggregate (sets.take m)) (c, x) ≤ support (aggregate (sets.take m)) c
    ∧ pairW (aggregate (sets.take m)) (x, c) ≤ support (aggregate (sets.take m)) c := by
  have hn' : ∀ C ∈ sets.take m, C.Nodup := fun C hC => hn C (List.take_subset m sets hC)
  have hs := support_foldl (sets.take m) { nodeCounts := [], pairWeight := [] } hn' c
  have h1 := pairW_foldl (sets.take m) { nodeCounts := [], pairWeight := [] } hn' c x
  have h2 := pairW_foldl (sets.take m) { nodeCounts := [], pairWeight := [] } hn' x c
  constructor
  · show pairW ((sets.take m).foldl accumulate { nodeCounts := [], pairWeight := [] }) (c, x)
        ≤ support ((sets.take m).foldl accumulate { nodeCounts := [], pairWeight := [] }) c
    rw [hs, h1]
    refine Nat.add_le_add (Nat.le_refl _) (List.countP_mono_left ?_)
    exact fun C _ hd => decide_eq_true (of_decide_eq_true hd).1
  · show pairW ((sets.take m).foldl accumulate { nodeCounts := [], pairWeight := [] }) (x, c)
        ≤ support ((sets.take m).foldl accumulate { nodeCounts := [], pairWeight := [] }) c
    rw [hs, h2]
    refine Nat.add_le_add (Nat.le_refl _) (List.countP_mono_left ?_)
    exact fun C _ hd => decide_eq_true (of_decide_eq_true hd).2.1

/-- Witness for C6 on a concrete prefix. -/
theorem support_ge_pair_weight_witness :
    pairW (aggregate ([["A", "B"]].take 1)) ("A", "B")
        ≤ support (aggregate ([["A", "B"]].take 1)) "A"
    ∧ pairW (aggregate ([["A", "B"]].take 1)) ("B", "A")
        ≤ support (aggregate ([["A", "B"]].take 1)) "A" :=
  support_ge_pair_weight [["A", "B"]] (by decide) 1 "A" "B"

-- ----------------------------------------------------------------
-- Claim C3: the emitted aggregate edge list
-- ----------------------------------------------------------------

/-- Counterexample to C3 as stated: with records {C,D} then {A,B} the two
pairs tie at weight 1 and the emitted list keeps first-insertion order
(C,D before A,B), not the lexicographic tie-break the claim asserts. -/
theorem metaEdges_not_lex_tiebreak :
    metaEdges (aggregate [["C", "D"], ["A", "B"]]).pairWeight
      = [{ src := "C", dst := "D", rel := "CO_OCCURS_WITH", weight := 1 },
         { src := "A", dst := "B", rel := "CO_OCCURS_WITH", weight := 1 }]
    ∧ ¬ ((metaEdges (aggregate [["C", "D"], ["A", "B"]]).pairWeight).Pairwise
        (fun e₁ e₂ => e₂.weight < e₁.weight
          ∨ (e₁.weight = e₂.weight
            ∧ (e₁.src < e₂.src ∨ (e₁.src = e₂.src ∧ e₁.dst ≤ e₂.dst))))) := by
  decide

/-- Claim C3 as amended: the emitted edge list carries rel CO_OCCURS_WITH,
is sorted by descending weight, holds exactly the positive-weight entries
of pair_weight with their weights (zero weights filtered out), and breaks
weight ties by the entries first-insertion order in pair_weight (the sort
is stable), not by the lexicographic order of the pairs. -/
theorem metaEdges_spec (pw : List ((String × String) × Nat)) :
    (∀ e ∈ metaEdges pw, e.rel = "CO_OCCURS_WITH")
    ∧ (metaEdges pw).Pairwise (fun e₁ e₂ => e₂.weight ≤ e₁.weight)
    ∧ List.Perm (metaEdges pw) ((pw.filter (fun q => decide (0 < q.2))).map toMetaEdge)
    ∧ (∀ w, 0 < w → (metaEdges pw).filter (fun e => decide (e.weight = w))
        = (pw.filter (fun q => decide (q.2 = w))).map toMetaEdge) := by
  refine ⟨?_, ?_, ?_, ?_⟩
  · intro e he
    obtain ⟨q, _, rfl⟩ := List.mem_map.mp he
    rfl
  · refine (List.pairwise_map).mpr ?_
    exact (List.sorted_insertionSort wge pw).filter _
  · exact ((List.perm_insertionSort wge pw).filter _).map toMetaEdge
  · intro w hw
    have hself : (pw.filter (fun q => decide (q.2 = w))).filter (fun q => decide (q.2 = w))
        = pw.filter (fun q => decide (q.2 = w)) :=
      List.filter_eq_self.mpr (fun a ha => (List.mem_filter.mp ha).2)
    have h1 : (pw.filter (fun q => decide (q.2 = w))).Pairwise wge := by
      refine List.pairwise_of_forall_mem_list ?_
      intro a ha b hb
      have ha' := of_decide_eq_true (List.mem_filter.mp ha).2
      have hb' := of_decide_eq_true (List.mem_filter.mp hb).2
      show b.2 ≤ a.2
      rw [ha', hb']
    have h2 := List.sublist_insertionSort h1 (List.filter_sublist pw)
    have h3 : List.Sublist (pw.filter (fun q => decide (q.2 = w)))
        ((List.insertionSort wge pw).filter (fun q => decide (q.2 = w))) := by
      have hf := h2.filter (fun q => decide (q.2 = w))
      rwa [hself] at hf
    have h4 : ((List.insertionSort wge pw).filter (fun q => decide (q.2 = w))).length
        = (pw.filter (fun q => decide (q.2 = w))).length :=
      ((List.perm_insertionSort wge pw).filter _).length_eq
    have hstab : pw.filter (fun q => decide (q.2 = w))
        = (List.insertionSort wge pw).filter (fun q => decide (q.2 = w)) :=
      h3.eq_of_length h4.symm
    show (((List.insertionSort wge pw).filter (fun q => decide (0 < q.2))).map
        toMetaEdge).filter (fun e => decide (e.weight = w)) = _
    rw [List.filter_map, List.filter_filter]
    have hcong : ∀ q ∈ List.insertionSort wge pw,
        (((fun e => decide (e.weight = w)) ∘ toMetaEdge) q && decide (0 < q.2))
          = (fun q => decide (q.2 = w)) q := by
      intro q _
      show (decide (q.2 = w) && decide (0 < q.2)) = decide (q.2 = w)
      by_cases hq : q.2 = w
      · rw [decide_eq_true hq, decide_eq_true (hq ▸ hw)]
        rfl
      · rw [decide_eq_false hq]
        rfl
    rw [List.filter_congr hcong, ← hstab]

/-- Witness for the amended C3 tie-break clause at a concrete pair_weight
with a weight tie. -/
theorem metaEdges_spec_witness :
    (metaEdges [(("C", "D"), 1), (("A", "B"), 1)]).filter (fun e => decide (e.weight = 1))
      = ([(("C", "D"), 1), (("A", "B"), 1)].filter (fun q => decide (q.2 = 1))).map toMetaEdge :=
  (metaEdges_spec [(("C", "D"), 1), (("A", "B"), 1)]).2.2.2 1 (by decide)

end SFI
